import Mathlib

/-!
Shallow embedding of `qdl.c` (Qualcomm download-mode bootstrap tool):
USB device enumeration and interface selection (`parse_usb_desc`, `usb_open`),
the transport read/write primitives (`qdl_read`, `qdl_write`), XML file-type
classification (`detect_type`) and the dispatcher (`main`).

External effects (libusb bulk transfers, external loaders) are modelled as
oracle functions passed to the embedded definitions; the embedding records
the calls each primitive makes so that ordering and counting claims can be
stated.  Machine integers are modelled as `Nat`/`Int`; C error codes keep
their numeric values (`EINVAL = 22`, `ENOENT = 2`).
-/

namespace Qdl

/-! ## Transport: bulk-transfer calls and the `qdl_write` / `qdl_read` models -/

/-- One call to `libusb_bulk_transfer`: the endpoint address, the requested
length and the timeout argument. -/
structure BulkTransferCall where
  ep : Nat
  len : Nat
  timeout : Nat
  deriving DecidableEq, Repr

/-- A transport oracle: for the `k`-th bulk transfer issued it gives the pair
`(ret, transferred)` that `libusb_bulk_transfer` stores — the return code and
the byte count reported through the `transferred` out-parameter. -/
def Transport := Nat → Int × Nat

/-- The chunking loop of `qdl_write` (qdl.c lines 264-274): while `size > 0`,
send `xfer = min(out_maxpktsize, size)` bytes on the OUT endpoint with
timeout 0; a nonzero return code from the transport calls `err(1, ...)`,
which terminates the process (modelled as `none`).  `writed` accumulates
`xfer` — the requested chunk size — not the reported `transferred` count.
Returns the list of bulk-OUT calls issued and the final `writed`. -/
def qdl_writeLoop (out_ep P : Nat) (tr : Transport) (k size : Nat) :
    Option (List BulkTransferCall × Nat) :=
  if h : 0 < P ∧ 0 < size then
    let xfer := min P size
    if (tr k).1 ≠ 0 then none
    else
      match qdl_writeLoop out_ep P tr (k + 1) (size - xfer) with
      | none => none
      | some (calls, w) => some (⟨out_ep, xfer, 0⟩ :: calls, xfer + w)
  else
    some ([], 0)
termination_by size
decreasing_by
  omega

/-- `qdl_write` (qdl.c lines 260-284): run the chunking loop over the whole
buffer length, then, if `eot` and `len` is an exact multiple of the OUT max
packet size, issue one extra zero-length bulk-OUT transfer.  The return value
is `writed`; a transport error at any call aborts the process (`none`). -/
def qdl_write (out_ep P : Nat) (tr : Transport) (len : Nat) (eot : Bool) :
    Option (List BulkTransferCall × Nat) :=
  match qdl_writeLoop out_ep P tr 0 len with
  | none => none
  | some (calls, w) =>
    if eot && len % P == 0 then
      if (tr calls.length).1 ≠ 0 then none
      else some (calls ++ [⟨out_ep, 0, 0⟩], w)
    else some (calls, w)

/-- `qdl_read` (qdl.c lines 253-258): issue exactly one bulk-IN transfer of at
most `len` bytes with the caller's timeout; return the transport's return code
if it is nonzero, else the transferred byte count.  The first component
records the bulk transfer calls made. -/
def qdl_read (in_ep len timeout : Nat) (usb : BulkTransferCall → Int × Nat) :
    List BulkTransferCall × Int :=
  let call : BulkTransferCall := ⟨in_ep, len, timeout⟩
  let r := usb call
  ([call], if r.1 ≠ 0 then r.1 else (r.2 : Int))

/-- The chunk-length list the loop emits, in closed form: `len / P` full
packets followed by one short packet of `len % P` bytes when the remainder is
nonzero. -/
def chunkSpec (out_ep P len : Nat) : List BulkTransferCall :=
  List.replicate (len / P) ⟨out_ep, P, 0⟩ ++
    (if len % P = 0 then [] else [⟨out_ep, len % P, 0⟩])

/-! ## USB enumeration: descriptors, `parse_usb_desc` and `usb_open` -/

/-- libusb descriptor-type and transfer-type constants used by qdl.c. -/
def LIBUSB_DT_DEVICE : Nat := 1

def LIBUSB_DT_CONFIG : Nat := 2

def LIBUSB_DT_INTERFACE : Nat := 4

def LIBUSB_DT_ENDPOINT : Nat := 5

def LIBUSB_DT_INTERFACE_SIZE : Nat := 9

def LIBUSB_TRANSFER_TYPE_MASK : Nat := 3

def LIBUSB_TRANSFER_TYPE_BULK : Nat := 2

def LIBUSB_ENDPOINT_IN : Nat := 0x80

/-- A `libusb_endpoint_descriptor` as read by `parse_usb_desc`. -/
structure EndpointDesc where
  bDescriptorType : Nat
  bmAttributes : Nat
  bEndpointAddress : Nat
  wMaxPacketSize : Nat
  deriving DecidableEq, Repr

/-- The first alternate setting of a `libusb_interface` (qdl.c reads only
`interface.altsetting->`, i.e. alternate setting 0). -/
structure AltSetting where
  bDescriptorType : Nat
  bLength : Nat
  bInterfaceClass : Nat
  bInterfaceSubClass : Nat
  bInterfaceProtocol : Nat
  bInterfaceNumber : Nat
  endpoints : List EndpointDesc
  deriving DecidableEq, Repr

/-- A `libusb_config_descriptor` with its interfaces. -/
structure ConfigDesc where
  bDescriptorType : Nat
  interfaces : List AltSetting
  deriving DecidableEq, Repr

/-- A `libusb_device_descriptor` together with the device's configuration
descriptors (`bNumConfigurations = configs.length`). -/
structure DeviceDesc where
  idVendor : Nat
  idProduct : Nat
  bDescriptorType : Nat
  configs : List ConfigDesc
  deriving DecidableEq, Repr

/-- The four local variables of `parse_usb_desc` (`in`, `in_size`, `out`,
`out_size`), paired per direction.  They are declared without initializers in
the C source; `none` models "never assigned". -/
structure ScanState where
  inEp : Option (Nat × Nat)
  outEp : Option (Nat × Nat)
  deriving DecidableEq, Repr

/-- `struct qdl_device` as populated at qdl.c lines 204-208: the opened
handle, and the `(endpoint address, max packet size)` pairs copied from the
scan locals.  `none` endpoint fields model copies of never-assigned locals. -/
structure QdlDevice where
  handle : Bool
  in_ep : Option (Nat × Nat)
  out_ep : Option (Nat × Nat)
  deriving DecidableEq, Repr

/-- The endpoint loop (qdl.c lines 168-185): a non-`ENDPOINT` descriptor type
returns `-EINVAL` (`none`); non-bulk endpoints are skipped; a bulk endpoint
overwrites the IN or OUT slot according to bit 0x80 of its address. -/
def scanEndpoints : List EndpointDesc → ScanState → Option ScanState
  | [], s => some s
  | e :: rest, s =>
    if e.bDescriptorType ≠ LIBUSB_DT_ENDPOINT then none
    else if e.bmAttributes &&& LIBUSB_TRANSFER_TYPE_MASK ≠ LIBUSB_TRANSFER_TYPE_BULK then
      scanEndpoints rest s
    else if e.bEndpointAddress &&& LIBUSB_ENDPOINT_IN ≠ 0 then
      scanEndpoints rest { s with inEp := some (e.bEndpointAddress, e.wMaxPacketSize) }
    else
      scanEndpoints rest { s with outEp := some (e.bEndpointAddress, e.wMaxPacketSize) }

/-- Outcome of the interface loop inside one configuration. -/
inductive IntfScan where
  | einval
  | cont (s : ScanState)
  | found (dev : QdlDevice) (intf : Nat)
  deriving DecidableEq, Repr

/-- The interface loop (qdl.c lines 160-212): reject malformed alternate
settings with `-EINVAL`; scan endpoints (state persists across interfaces);
skip interfaces failing the class/subclass/protocol signature; on the first
passing interface open the device and fill `struct qdl_device` from the scan
locals. -/
def parseInterfaces : List AltSetting → ScanState → IntfScan
  | [], s => .cont s
  | a :: rest, s =>
    if a.bDescriptorType ≠ LIBUSB_DT_INTERFACE then .einval
    else if a.bLength < LIBUSB_DT_INTERFACE_SIZE then .einval
    else
      match scanEndpoints a.endpoints s with
      | none => .einval
      | some s' =>
        if a.bInterfaceClass ≠ 0xff then parseInterfaces rest s'
        else if a.bInterfaceSubClass ≠ 0xff then parseInterfaces rest s'
        else if a.bInterfaceProtocol ≠ 0xff ∧ a.bInterfaceProtocol ≠ 16 then
          parseInterfaces rest s'
        else .found ⟨true, s'.inEp, s'.outEp⟩ a.bInterfaceNumber

/-- Result of `parse_usb_desc` for one device: `-EINVAL` or a found session
plus the interface number to claim. -/
inductive ParseOutcome where
  | einval
  | found (dev : QdlDevice) (intf : Nat)
  deriving DecidableEq, Repr

/-- The configuration loop (qdl.c lines 144-213): a non-`CONFIG` descriptor
type returns `-EINVAL`; otherwise run the interface loop, threading the scan
state to the next configuration when no interface matched. -/
def parseConfigs : List ConfigDesc → ScanState → ParseOutcome
  | [], _ => .einval
  | c :: rest, s =>
    if c.bDescriptorType ≠ LIBUSB_DT_CONFIG then .einval
    else
      match parseInterfaces c.interfaces s with
      | .einval => .einval
      | .found dev i => .found dev i
      | .cont s' => parseConfigs rest s'

/-- `parse_usb_desc` (qdl.c lines 116-215): reject a device whose
vendor/product pair is not `05c6:9008` or whose descriptor type is not
`DEVICE`, then walk its configurations. -/
def parse_usb_desc (d : DeviceDesc) : ParseOutcome :=
  if d.idVendor ≠ 0x05c6 ∨ d.idProduct ≠ 0x9008 then .einval
  else if d.bDescriptorType ≠ LIBUSB_DT_DEVICE then .einval
  else parseConfigs d.configs ⟨none, none⟩

/-- Result of `usb_open`: `-ENOENT` or a claimed session. -/
inductive UsbOpen where
  | noent
  | opened (dev : QdlDevice) (intf : Nat)
  deriving DecidableEq, Repr

/-- `usb_open` (qdl.c lines 217-251): try `parse_usb_desc` on each device in
list order; the first `found` device wins (the interface is then claimed);
a nonzero return moves on to the next device; exhaustion returns `-ENOENT`. -/
def usb_open : List DeviceDesc → UsbOpen
  | [] => .noent
  | d :: rest =>
    match parse_usb_desc d with
    | .found dev i => .opened dev i
    | .einval => usb_open rest

/-! Spec-side predicates for the enumeration claims. -/

/-- The fixed download-mode identity `05c6:9008` (qdl.c line 135). -/
def matchesId (d : DeviceDesc) : Bool :=
  d.idVendor == 0x05c6 && d.idProduct == 0x9008

/-- The interface signature filter: class `0xff`, subclass `0xff`, protocol
`0xff` or `0x10` (qdl.c lines 186-197). -/
def matchesSig (a : AltSetting) : Bool :=
  a.bInterfaceClass == 0xff && a.bInterfaceSubClass == 0xff &&
    (a.bInterfaceProtocol == 0xff || a.bInterfaceProtocol == 16)

/-- Some configuration of `d` holds an interface passing the signature. -/
def hasMatchingIntf (d : DeviceDesc) : Bool :=
  d.configs.any fun c => c.interfaces.any matchesSig

/-- Structural well-formedness: the descriptor types and lengths that
`parse_usb_desc` sanity-checks are all as expected. -/
def EndpointDesc.wfB (e : EndpointDesc) : Bool :=
  e.bDescriptorType == LIBUSB_DT_ENDPOINT

def AltSetting.wfB (a : AltSetting) : Bool :=
  a.bDescriptorType == LIBUSB_DT_INTERFACE &&
    decide (LIBUSB_DT_INTERFACE_SIZE ≤ a.bLength) &&
    a.endpoints.all EndpointDesc.wfB

def ConfigDesc.wfB (c : ConfigDesc) : Bool :=
  c.bDescriptorType == LIBUSB_DT_CONFIG && c.interfaces.all AltSetting.wfB

def DeviceDesc.wfB (d : DeviceDesc) : Bool :=
  d.bDescriptorType == LIBUSB_DT_DEVICE && d.configs.all ConfigDesc.wfB

/-- Interface numbers of signature-passing interfaces of one device, in
configuration → interface order (empty if the identity does not match). -/
def sigIntfNumbers (d : DeviceDesc) : List Nat :=
  if matchesId d then
    (d.configs.map fun c =>
      (c.interfaces.filter matchesSig).map AltSetting.bInterfaceNumber).flatten
  else []

/-- Signature-passing interface numbers over the whole device list, in
device → configuration → interface enumeration order. -/
def allSigIntfNumbers (devs : List DeviceDesc) : List Nat :=
  (devs.map sigIntfNumbers).flatten

/-- Bulk transfer type test (qdl.c line 174). -/
def isBulk (e : EndpointDesc) : Bool :=
  e.bmAttributes &&& LIBUSB_TRANSFER_TYPE_MASK == LIBUSB_TRANSFER_TYPE_BULK

/-- Direction bit test (qdl.c line 178). -/
def isInDir (e : EndpointDesc) : Bool :=
  e.bEndpointAddress &&& LIBUSB_ENDPOINT_IN != 0

/-- What the scan records for an endpoint: its address and max packet size. -/
def epRecord (e : EndpointDesc) : Nat × Nat :=
  (e.bEndpointAddress, e.wMaxPacketSize)

/-- First-`some` choice, used to express "the last assignment wins, else the
slot keeps its previous value". -/
def lastOr {α : Type} (o d : Option α) : Option α :=
  match o with
  | some p => some p
  | none => d

/-- The record of the last bulk endpoint of the given direction (`true` = IN)
in enumeration order, if any. -/
def lastBulk (dir : Bool) (eps : List EndpointDesc) : Option (Nat × Nat) :=
  ((eps.filter fun e => isBulk e && (isInDir e == dir)).getLast?).map epRecord

/-- The scan state after the endpoint loop of one well-formed interface. -/
def scannedState (a : AltSetting) (s : ScanState) : ScanState :=
  ⟨lastOr (lastBulk true a.endpoints) s.inEp, lastOr (lastBulk false a.endpoints) s.outEp⟩

/-- The signature-passing interface numbers of one configuration. -/
def cfgSigNumbers (c : ConfigDesc) : List Nat :=
  (c.interfaces.filter matchesSig).map AltSetting.bInterfaceNumber

/-- A device with a non-matching vendor identifier but a signature-passing
interface with valid bulk endpoints. -/
def wrongIdDev : DeviceDesc :=
  ⟨0x1234, 0x9008, 1,
    [⟨2, [⟨4, 9, 0xff, 0xff, 0xff, 0, [⟨5, 2, 0x81, 512⟩, ⟨5, 2, 1, 64⟩]⟩]⟩]⟩

/-- A fully well-formed matching device: its first interface has valid bulk
endpoints but fails the signature filter; its second interface (number 3,
protocol `0x10`) passes. -/
def goodDev : DeviceDesc :=
  ⟨0x05c6, 0x9008, 1,
    [⟨2, [⟨4, 9, 8, 6, 0x50, 0, [⟨5, 2, 0x82, 64⟩, ⟨5, 2, 2, 64⟩]⟩,
          ⟨4, 9, 0xff, 0xff, 16, 3, [⟨5, 2, 0x81, 512⟩, ⟨5, 2, 1, 64⟩]⟩]⟩]⟩

/-- A device with the matching identity and a signature-passing interface but
an inconsistent device descriptor type (`0` instead of `DEVICE`). -/
def badTypeDev : DeviceDesc :=
  ⟨0x05c6, 0x9008, 0,
    [⟨2, [⟨4, 9, 0xff, 0xff, 0xff, 7, [⟨5, 2, 0x81, 512⟩, ⟨5, 2, 1, 64⟩]⟩]⟩]⟩

/-- A well-formed matching device whose signature-passing interface has zero
endpoints, so the scan locals are never assigned. -/
def noEndpointsDev : DeviceDesc :=
  ⟨0x05c6, 0x9008, 1, [⟨2, [⟨4, 9, 0xff, 0xff, 0xff, 0, []⟩]⟩]⟩

/-! ## XML classification: `detect_type` -/

/-- A libxml2 node: its node type (`XML_ELEMENT_NODE = 1`), tag name and
children, which is all `detect_type` inspects. -/
inductive XmlNode where
  | mk (nodeType : Nat) (name : String) (children : List XmlNode)

def XmlNode.nodeType : XmlNode → Nat
  | .mk t _ _ => t

def XmlNode.name : XmlNode → String
  | .mk _ n _ => n

def XmlNode.children : XmlNode → List XmlNode
  | .mk _ _ c => c

def XML_ELEMENT_NODE : Nat := 1

/-- The file-kind constants of qdl.c's anonymous enum, as the `int` values
`detect_type` returns; `-EINVAL = -22` on parse failure. -/
def QDL_FILE_UNKNOWN : Int := 0

def QDL_FILE_PATCH : Int := 1

def QDL_FILE_PROGRAM : Int := 2

def QDL_FILE_UFS : Int := 3

def QDL_FILE_CONTENTS : Int := 4

/-- The child loop for a `data` root (qdl.c lines 95-106): skip non-element
nodes; the first child named `program` or `ufs` decides the type and breaks;
otherwise the type stays `QDL_FILE_UNKNOWN`. -/
def scanDataChildren : List XmlNode → Int
  | [] => QDL_FILE_UNKNOWN
  | n :: rest =>
    if n.nodeType ≠ XML_ELEMENT_NODE then scanDataChildren rest
    else if n.name = "program" then QDL_FILE_PROGRAM
    else if n.name = "ufs" then QDL_FILE_UFS
    else scanDataChildren rest

/-- `detect_type` (qdl.c lines 79-114): `none` models `xmlReadFile` failing
(unreadable or malformed XML), which returns `-EINVAL`; otherwise the root
tag selects `patches`/`data`/`contents`, anything else is `UNKNOWN`. -/
def detect_type : Option XmlNode → Int
  | none => -22
  | some root =>
    if root.name = "patches" then QDL_FILE_PATCH
    else if root.name = "data" then scanDataChildren root.children
    else if root.name = "contents" then QDL_FILE_CONTENTS
    else QDL_FILE_UNKNOWN

/-- An element child named `program` or `ufs` — what the `data` child loop
searches for. -/
def isPU (n : XmlNode) : Bool :=
  n.nodeType == XML_ELEMENT_NODE && (n.name == "program" || n.name == "ufs")

/-! ## Dispatcher: the post-getopt phase of `main` -/

/-- Observable actions of the dispatcher: the usage message, the invocation
of the loader for the `idx`-th support file, USB enumeration (`usb_open`),
and the two external protocol engines. -/
inductive Event where
  | usage
  | load (idx : Nat)
  | usbOpen
  | sahara
  | firehose
  deriving DecidableEq, Repr

/-- One support-file argument: the outcome of parsing it as XML, and the
value its loader (`patch_load` / `program_load` / `ufs_load`, external
collaborators) would return if invoked. -/
structure SupportFile where
  xml : Option XmlNode
  loadResult : Int

/-- The staging do-while loop of `main` (qdl.c lines 352-377), for the
support files from argument index `i` on: classify with `detect_type`; a
negative or `UNKNOWN` type calls `errx` (abort, trace so far, `false`);
types PATCH/PROGRAM/UFS invoke the matching loader, whose negative return
aborts; any other type (`CONTENTS`) hits the `default: errx` arm.  Returns
the loader-invocation trace and whether staging completed. -/
def dispatchFiles : Nat → List SupportFile → List Event × Bool
  | _, [] => ([], true)
  | i, f :: rest =>
    let t := detect_type f.xml
    if t < 0 ∨ t = QDL_FILE_UNKNOWN then ([], false)
    else if t = QDL_FILE_PATCH ∨ t = QDL_FILE_PROGRAM ∨ t = QDL_FILE_UFS then
      if f.loadResult < 0 then ([Event.load i], false)
      else
        let r := dispatchFiles (i + 1) rest
        (Event.load i :: r.1, r.2)
    else ([], false)

/-- The post-getopt body of `main` (qdl.c lines 344-392): `args` is the
positional argument list `argv[optind..]`, whose head is the programmer
image; `optind + 2 > argc` is `args.length < 2`, a usage error exiting 1.
Then the staging loop runs over the remaining arguments; only on success is
`usb_open` attempted (event `usbOpen`), followed by `sahara_run` and
`firehose_run`, whose outcomes the oracles `usbOk`/`saharaRet`/`firehoseRet`
provide.  Returns the event trace and the process exit code. -/
def qdl_main (args : List SupportFile) (usbOk : Bool) (saharaRet firehoseRet : Int) :
    List Event × Int :=
  if args.length < 2 then ([Event.usage], 1)
  else
    let r := dispatchFiles 0 args.tail
    if r.2 = false then (r.1, 1)
    else if usbOk = false then (r.1 ++ [Event.usbOpen], 1)
    else if saharaRet < 0 then (r.1 ++ [Event.usbOpen, Event.sahara], 1)
    else if firehoseRet < 0 then (r.1 ++ [Event.usbOpen, Event.sahara, Event.firehose], 1)
    else (r.1 ++ [Event.usbOpen, Event.sahara, Event.firehose], 0)

/-- A support file that stages successfully: recognized loadable type and a
non-negative loader result. -/
def stagesOk (f : SupportFile) : Prop :=
  (detect_type f.xml = QDL_FILE_PATCH ∨ detect_type f.xml = QDL_FILE_PROGRAM ∨
    detect_type f.xml = QDL_FILE_UFS) ∧ 0 ≤ f.loadResult

/-- A support file that aborts staging in one of the ways claim C5 lists:
parse failure, Unknown classification, or loader failure. -/
def failsStaging (f : SupportFile) : Prop :=
  detect_type f.xml < 0 ∨ detect_type f.xml = QDL_FILE_UNKNOWN ∨
    ((detect_type f.xml = QDL_FILE_PATCH ∨ detect_type f.xml = QDL_FILE_PROGRAM ∨
      detect_type f.xml = QDL_FILE_UFS) ∧ f.loadResult < 0)

/-- The programmer-image positional argument (never classified or loaded). -/
def progFile : SupportFile := ⟨none, 0⟩

/-- A support file classifying as Patch whose loader succeeds. -/
def patchFile : SupportFile := ⟨some (XmlNode.mk 1 "patches" []), 0⟩

/-- A support file with well-formed XML but an unrecognized root: Unknown. -/
def unknownFile : SupportFile := ⟨some (XmlNode.mk 1 "widget" []), 0⟩

instance (f : SupportFile) : Decidable (stagesOk f) := by
  unfold stagesOk
  infer_instance

instance (f : SupportFile) : Decidable (failsStaging f) := by
  unfold failsStaging
  infer_instance

theorem qdl_writeLoop_eq (out_ep P : Nat) (tr : Transport)
    (hP : 0 < P) (hok : ∀ k, (tr k).1 = 0) :
    ∀ len k, qdl_writeLoop out_ep P tr k len = some (chunkSpec out_ep P len, len) := by
  intro len
  induction len using Nat.strong_induction_on with
  | _ len ih =>
    intro k
    rw [qdl_writeLoop.eq_def]
    by_cases hlen : 0 < len
    · simp only [hP, hlen, and_self, dite_true, hok k, ne_eq, not_true_eq_false,
        ite_false, if_false]
      have hrec := ih (len - min P len) (by omega) (k + 1)
      rw [hrec]
      simp only [Option.some.injEq, Prod.mk.injEq]
      rcases Nat.le_total P len with hPle | hlele
      · have hmin : min P len = P := Nat.min_eq_left hPle
        rw [hmin]
        constructor
        · unfold chunkSpec
          have hdiv : len / P = (len - P) / P + 1 := by
            rw [Nat.div_eq_sub_div hP hPle]
          have hmod : len % P = (len - P) % P := by
            conv_lhs => rw [← Nat.sub_add_cancel hPle]
            rw [Nat.add_mod_right]
          rw [hdiv, hmod, List.replicate_succ]
          simp
        · omega
      · have hmin : min P len = len := Nat.min_eq_right hlele
        rw [hmin]
        have hsub : len - len = 0 := Nat.sub_self len
        rw [hsub]
        constructor
        · unfold chunkSpec
          rcases Nat.lt_or_ge len P with hlt | hge
          · have hdiv : len / P = 0 := Nat.div_eq_of_lt hlt
            have hmod : len % P = len := Nat.mod_eq_of_lt hlt
            rw [hdiv, hmod]
            simp only [List.replicate_zero, List.nil_append]
            have : ¬ len = 0 := by omega
            simp [chunkSpec, this]
          · have hPeq : P = len := by omega
            subst hPeq
            have hdiv : P / P = 1 := Nat.div_self hP
            have hmod : P % P = 0 := Nat.mod_self P
            rw [hdiv, hmod]
            simp [chunkSpec]
        · omega
    · have hlen0 : len = 0 := by omega
      subst hlen0
      simp [chunkSpec]

theorem chunkSpec_sum (o P len : Nat) (hP : 0 < P) :
    ((chunkSpec o P len).map BulkTransferCall.len).sum = len := by
  unfold chunkSpec
  by_cases h : len % P = 0
  · simp only [h, ite_true, if_pos, List.append_nil, List.map_replicate,
      List.sum_replicate, smul_eq_mul]
    conv_rhs => rw [← Nat.div_add_mod len P]
    rw [h, Nat.mul_comm]
    omega
  · simp only [h, ite_false, if_neg, List.map_append, List.map_replicate,
      List.sum_append, List.sum_replicate, smul_eq_mul, List.map_cons,
      List.map_nil, List.sum_cons, List.sum_nil]
    conv_rhs => rw [← Nat.div_add_mod len P]
    rw [Nat.mul_comm]
    omega

theorem chunkSpec_dropLast (o P len : Nat) :
    ∀ c ∈ (chunkSpec o P len).dropLast, c = (⟨o, P, 0⟩ : BulkTransferCall) := by
  unfold chunkSpec
  by_cases h : len % P = 0
  · simp only [h, ite_true, List.append_nil]
    intro c hc
    have hmem : c ∈ List.replicate (len / P) (⟨o, P, 0⟩ : BulkTransferCall) :=
      List.dropLast_sublist _ |>.mem hc
    exact List.eq_of_mem_replicate hmem
  · simp only [h, ite_false]
    intro c hc
    rw [List.dropLast_concat] at hc
    exact List.eq_of_mem_replicate hc

theorem chunkSpec_getLast (o P len : Nat) (hP : 0 < P) (hlen : 0 < len) :
    (chunkSpec o P len).getLast?.map BulkTransferCall.len =
      some (if len % P = 0 then P else len % P) := by
  unfold chunkSpec
  by_cases h : len % P = 0
  · simp only [h, ite_true, List.append_nil]
    have hdiv : 0 < len / P := Nat.div_pos (Nat.le_of_dvd hlen (Nat.dvd_of_mod_eq_zero h)) hP
    obtain ⟨m, hm⟩ : ∃ m, len / P = m + 1 := ⟨len / P - 1, by omega⟩
    rw [hm, List.replicate_succ', List.getLast?_concat]
    rfl
  · simp only [h, ite_false, List.getLast?_concat, Option.map_some']

theorem chunkSpec_mem (o P len : Nat) :
    ∀ c ∈ chunkSpec o P len, c.ep = o ∧ c.timeout = 0 := by
  unfold chunkSpec
  intro c hc
  rcases List.mem_append.mp hc with h | h
  · rw [List.eq_of_mem_replicate h]
    exact ⟨rfl, rfl⟩
  · by_cases hz : len % P = 0
    · simp [hz] at h
    · simp only [hz, ite_false, List.mem_singleton] at h
      rw [h]
      exact ⟨rfl, rfl⟩

/-- C1: with `out_max_packet = P > 0` and an error-free transport, `qdl_write`
sends the buffer as bulk-OUT chunks whose lengths sum to `len`, every chunk
except possibly the last has length exactly `P`, the last chunk has length
`len % P` (or `P` when that remainder is 0 and `len > 0`), and one additional
zero-length bulk-OUT transfer follows the data chunks if and only if
`eot = true` and `len % P = 0` (including `len = 0`). -/
theorem write_chunking_and_zlp (out_ep P len : Nat) (eot : Bool) (tr : Transport)
    (hP : 0 < P) (hok : ∀ k, (tr k).1 = 0) :
    ∃ data w,
      qdl_writeLoop out_ep P tr 0 len = some (data, w) ∧
      (data.map BulkTransferCall.len).sum = len ∧
      (∀ c ∈ data.dropLast, c.len = P) ∧
      (0 < len → data.getLast?.map BulkTransferCall.len =
        some (if len % P = 0 then P else len % P)) ∧
      (len = 0 → data = []) ∧
      (∀ c ∈ data, c.ep = out_ep ∧ c.timeout = 0 ∧ 0 < c.len) ∧
      qdl_write out_ep P tr len eot =
        some (data ++ (if eot = true ∧ len % P = 0 then [⟨out_ep, 0, 0⟩] else []), w) := by
  refine ⟨chunkSpec out_ep P len, len, qdl_writeLoop_eq out_ep P tr hP hok len 0,
    chunkSpec_sum out_ep P len hP, ?_, ?_, ?_, ?_, ?_⟩
  · intro c hc
    rw [chunkSpec_dropLast out_ep P len c hc]
  · intro hlen
    exact chunkSpec_getLast out_ep P len hP hlen
  · intro hlen
    subst hlen
    simp [chunkSpec]
  · intro c hc
    refine ⟨(chunkSpec_mem out_ep P len c hc).1, (chunkSpec_mem out_ep P len c hc).2, ?_⟩
    unfold chunkSpec at hc
    rcases List.mem_append.mp hc with h | h
    · rw [List.eq_of_mem_replicate h]
      exact hP
    · by_cases hz : len % P = 0
      · simp [hz] at h
      · simp only [hz, ite_false, List.mem_singleton] at h
        rw [h]
        simpa using Nat.pos_of_ne_zero hz
  · unfold qdl_write
    rw [qdl_writeLoop_eq out_ep P tr hP hok len 0]
    by_cases hz : len % P = 0
    · simp only [hz, beq_self_eq_true, Bool.and_true]
      cases eot with
      | false => simp
      | true => simp [hok]
    · have : (len % P == 0) = false := by simpa using hz
      simp [this, hz]

/-- Witness for C1 at `P = 4`, `len = 10`, `eot = true`, all-success
transport: the hypotheses hold and the chunk sequence is `[4, 4, 2]` with no
trailing zero-length transfer. -/
theorem write_chunking_and_zlp_witness :
    0 < 4 ∧ (∀ k : Nat, ((fun _ => ((0 : Int), (0 : Nat))) k).1 = 0) ∧
    ∃ data w,
      qdl_writeLoop 1 4 (fun _ => ((0 : Int), (0 : Nat))) 0 10 = some (data, w) ∧
      (data.map BulkTransferCall.len).sum = 10 ∧
      (∀ c ∈ data.dropLast, c.len = 4) ∧
      (0 < 10 → data.getLast?.map BulkTransferCall.len =
        some (if 10 % 4 = 0 then 4 else 10 % 4)) ∧
      (10 = 0 → data = []) ∧
      (∀ c ∈ data, c.ep = 1 ∧ c.timeout = 0 ∧ 0 < c.len) ∧
      qdl_write 1 4 (fun _ => ((0 : Int), (0 : Nat))) 10 true =
        some (data ++ (if true = true ∧ 10 % 4 = 0 then [⟨1, 0, 0⟩] else []), w) :=
  ⟨by decide, fun _ => rfl,
    write_chunking_and_zlp 1 4 10 true (fun _ => ((0 : Int), (0 : Nat)))
      (by decide) (fun _ => rfl)⟩

/-- C10: whenever `qdl_write` returns a byte count (no transfer errored and
the process did not abort), that count equals `len` exactly, for every
transport oracle — including ones whose reported `transferred` is short of
the requested chunk size, since the code accumulates the requested `xfer`. -/
theorem write_returns_len (out_ep P len : Nat) (eot : Bool) (tr : Transport)
    (hP : 0 < P) (calls : List BulkTransferCall) (w : Nat)
    (hret : qdl_write out_ep P tr len eot = some (calls, w)) :
    w = len := by
  have hloop : ∀ len k calls w,
      qdl_writeLoop out_ep P tr k len = some (calls, w) → w = len := by
    intro len
    induction len using Nat.strong_induction_on with
    | _ len ih =>
      intro k calls w h
      rw [qdl_writeLoop.eq_def] at h
      by_cases hlen : 0 < len
      · simp only [hP, hlen, and_self, dite_true] at h
        by_cases herr : (tr k).1 ≠ 0
        · simp [herr] at h
        · simp only [herr, ite_false, if_neg, not_true_eq_false, not_not] at h
          rcases hrec : qdl_writeLoop out_ep P tr (k + 1) (len - min P len) with _ | ⟨calls', w'⟩
          · rw [hrec] at h
            simp at h
          · rw [hrec] at h
            simp only [Option.some.injEq, Prod.mk.injEq] at h
            have hw' : w' = len - min P len := ih (len - min P len) (by omega) (k + 1) calls' w' hrec
            omega
      · have hlen0 : len = 0 := by omega
        subst hlen0
        simp only [lt_self_iff_false, and_false, dite_false, Option.some.injEq,
          Prod.mk.injEq] at h
        omega
  unfold qdl_write at hret
  rcases hrec : qdl_writeLoop out_ep P tr 0 len with _ | ⟨calls', w'⟩
  · rw [hrec] at hret
    simp at hret
  · rw [hrec] at hret
    have hw' : w' = len := hloop len 0 calls' w' hrec
    by_cases hcond : (eot && len % P == 0) = true
    · simp only [hcond, ite_true] at hret
      by_cases herr : (tr calls'.length).1 = 0
      · rw [if_neg (not_not_intro herr)] at hret
        simp only [Option.some.injEq, Prod.mk.injEq] at hret
        obtain ⟨-, hw⟩ := hret
        omega
      · rw [if_pos herr] at hret
        simp at hret
    · simp only [hcond, ite_false, Option.some.injEq, Prod.mk.injEq] at hret
      obtain ⟨-, hw⟩ := hret
      omega

/-- Witness for C10: at `P = 4`, `len = 10`, a transport that reports only 1
byte transferred per call still yields `writed = 10`. -/
theorem write_returns_len_witness :
    0 < 4 ∧
    qdl_write 1 4 (fun _ => ((0 : Int), (1 : Nat))) 10 false =
      some ([⟨1, 4, 0⟩, ⟨1, 4, 0⟩, ⟨1, 2, 0⟩], 10) ∧
    (10 : Nat) = 10 := by
  have h : qdl_write 1 4 (fun _ => ((0 : Int), (1 : Nat))) 10 false =
      some ([⟨1, 4, 0⟩, ⟨1, 4, 0⟩, ⟨1, 2, 0⟩], 10) := by
    unfold qdl_write
    rw [qdl_writeLoop_eq 1 4 (fun _ => ((0 : Int), (1 : Nat))) (by decide) (fun _ => rfl)]
    rfl
  exact ⟨by decide,  h,
    write_returns_len 1 4 10 false (fun _ => ((0 : Int), (1 : Nat))) (by decide)
      [⟨1, 4, 0⟩, ⟨1, 4, 0⟩, ⟨1, 2, 0⟩] 10 h⟩

theorem lastOr_absorb {α : Type} (o : Option α) (y : α) (d : Option α) :
    lastOr (lastOr o (some y)) d = lastOr o (some y) := by
  cases o <;> rfl

theorem getLast?_cons_lastOr {α : Type} (x : α) (l : List α) :
    (x :: l).getLast? = lastOr l.getLast? (some x) := by
  induction l generalizing x with
  | nil => rfl
  | cons y t ih =>
    rw [List.getLast?_cons_cons, ih y]
    exact (lastOr_absorb t.getLast? y (some x)).symm

theorem lastOr_map {α β : Type} (f : α → β) (o d : Option α) :
    (lastOr o d).map f = lastOr (o.map f) (d.map f) := by
  cases o <;> rfl

theorem scanEndpoints_last (eps : List EndpointDesc) (s : ScanState)
    (h : ∀ e ∈ eps, e.bDescriptorType = LIBUSB_DT_ENDPOINT) :
    scanEndpoints eps s =
      some ⟨lastOr (lastBulk true eps) s.inEp, lastOr (lastBulk false eps) s.outEp⟩ := by
  induction eps generalizing s with
  | nil => rfl
  | cons e rest ih =>
    have he : e.bDescriptorType = LIBUSB_DT_ENDPOINT := h e (List.mem_cons_self e rest)
    have hrest : ∀ x ∈ rest, x.bDescriptorType = LIBUSB_DT_ENDPOINT :=
      fun x hx => h x (List.mem_cons_of_mem e hx)
    unfold scanEndpoints
    rw [if_neg (not_not_intro he)]
    by_cases hb : e.bmAttributes &&& LIBUSB_TRANSFER_TYPE_MASK = LIBUSB_TRANSFER_TYPE_BULK
    · rw [if_neg (not_not_intro hb)]
      have hlbT : ∀ dir : Bool,
          lastBulk dir (e :: rest) =
            if (isInDir e == dir) = true then lastOr (lastBulk dir rest) (some (epRecord e))
            else lastBulk dir rest := by
        intro dir
        unfold lastBulk
        by_cases hd : (isInDir e == dir) = true
        · rw [List.filter_cons_of_pos (by simp [isBulk, hb, hd]), if_pos hd,
            getLast?_cons_lastOr, lastOr_map]
          rfl
        · rw [List.filter_cons_of_neg (by simp [isBulk, hb]; simpa using hd), if_neg hd]
      by_cases hd : e.bEndpointAddress &&& LIBUSB_ENDPOINT_IN ≠ 0
      · rw [if_pos hd, ih _ hrest]
        have hdin : isInDir e = true := by simpa [isInDir] using hd
        rw [hlbT true, hlbT false]
        simp [hdin, epRecord, lastOr_absorb]
      · rw [if_neg hd, ih _ hrest]
        have hdout : isInDir e = false := by
          simp only [isInDir]
          simpa using not_not.mp hd
        rw [hlbT true, hlbT false]
        simp [hdout, epRecord, lastOr_absorb]
    · rw [if_pos hb, ih _ hrest]
      have hnb : isBulk e = false := by simpa [isBulk] using hb
      have hfilter : ∀ dir : Bool, lastBulk dir (e :: rest) = lastBulk dir rest := by
        intro dir
        unfold lastBulk
        rw [List.filter_cons_of_neg (by simp [hnb])]
      rw [hfilter true, hfilter false]

/-- C3: the endpoint scan ignores non-bulk endpoints, classifies each bulk
endpoint by the direction bit of its address, and records per direction the
address and max packet size of the *last* bulk endpoint of that direction in
enumeration order (keeping the incoming slot value when there is none):
last match wins, never first match. -/
theorem scan_last_match (eps : List EndpointDesc) (s : ScanState)
    (h : ∀ e ∈ eps, e.bDescriptorType = LIBUSB_DT_ENDPOINT) :
    scanEndpoints eps s =
      some ⟨lastOr (lastBulk true eps) s.inEp, lastOr (lastBulk false eps) s.outEp⟩ :=
  scanEndpoints_last eps s h

/-- Witness for C3: a scan of four endpoints — bulk-IN `0x81`, non-bulk
(interrupt) IN `0x82`, bulk-IN `0x83`, bulk-OUT `0x01` — records the *later*
bulk-IN endpoint `0x83` with its packet size, ignoring the interrupt one. -/
theorem scan_last_match_witness :
    scanEndpoints
      [⟨5, 2, 0x81, 64⟩, ⟨5, 3, 0x82, 8⟩, ⟨5, 2, 0x83, 512⟩, ⟨5, 2, 1, 32⟩]
      ⟨none, none⟩ =
      some ⟨some (0x83, 512), some (1, 32)⟩ := by
  have h := scan_last_match
    [⟨5, 2, 0x81, 64⟩, ⟨5, 3, 0x82, 8⟩, ⟨5, 2, 0x83, 512⟩, ⟨5, 2, 1, 32⟩]
    ⟨none, none⟩ (by decide)
  simpa using h

theorem parseInterfaces_cons_wf (a : AltSetting) (rest : List AltSetting) (s : ScanState)
    (ha : a.wfB = true) :
    parseInterfaces (a :: rest) s =
      if matchesSig a = true then
        .found ⟨true, (scannedState a s).inEp, (scannedState a s).outEp⟩ a.bInterfaceNumber
      else parseInterfaces rest (scannedState a s) := by
  have htype : a.bDescriptorType = LIBUSB_DT_INTERFACE := by
    simp only [AltSetting.wfB, Bool.and_eq_true, beq_iff_eq] at ha
    exact ha.1.1
  have hlen : ¬ a.bLength < LIBUSB_DT_INTERFACE_SIZE := by
    simp only [AltSetting.wfB, Bool.and_eq_true, beq_iff_eq, decide_eq_true_eq] at ha
    omega
  have heps : ∀ e ∈ a.endpoints, e.bDescriptorType = LIBUSB_DT_ENDPOINT := by
    simp only [AltSetting.wfB, Bool.and_eq_true, beq_iff_eq, List.all_eq_true,
      EndpointDesc.wfB] at ha
    exact fun e he => ha.2 e he
  rw [parseInterfaces]
  rw [if_neg (not_not_intro htype), if_neg hlen, scanEndpoints_last a.endpoints s heps]
  by_cases h1 : a.bInterfaceClass = 0xff
  · by_cases h2 : a.bInterfaceSubClass = 0xff
    · by_cases h3 : a.bInterfaceProtocol = 0xff ∨ a.bInterfaceProtocol = 16
      · have hsig : matchesSig a = true := by
          simp [matchesSig, h1, h2]
          omega
        simp only [hsig, ite_true]
        have : ¬ (a.bInterfaceProtocol ≠ 0xff ∧ a.bInterfaceProtocol ≠ 16) := by tauto
        rw [if_neg (not_not_intro h1), if_neg (not_not_intro h2), if_neg this]
        rfl
      · have hsig : matchesSig a = false := by
          simp [matchesSig]
          omega
        simp only [hsig, Bool.false_eq_true, ite_false]
        have : a.bInterfaceProtocol ≠ 0xff ∧ a.bInterfaceProtocol ≠ 16 := by tauto
        rw [if_neg (not_not_intro h1), if_neg (not_not_intro h2), if_pos this]
        rfl
    · have hsig : matchesSig a = false := by simp [matchesSig, h2]
      simp only [hsig, Bool.false_eq_true, ite_false]
      rw [if_neg (not_not_intro h1), if_pos h2]
      rfl
  · have hsig : matchesSig a = false := by simp [matchesSig, h1]
    simp only [hsig, Bool.false_eq_true, ite_false]
    rw [if_pos h1]
    rfl

theorem parseInterfaces_wf (intfs : List AltSetting) (s : ScanState)
    (hwf : ∀ a ∈ intfs, a.wfB = true) :
    (∃ s', parseInterfaces intfs s = .cont s' ∧ intfs.any matchesSig = false) ∨
    (∃ dev i, parseInterfaces intfs s = .found dev i ∧ intfs.any matchesSig = true ∧
      ((intfs.filter matchesSig).map AltSetting.bInterfaceNumber).head? = some i ∧
      dev.handle = true) := by
  induction intfs generalizing s with
  | nil => exact Or.inl ⟨s, rfl, rfl⟩
  | cons a rest ih =>
    have ha : a.wfB = true := hwf a (List.mem_cons_self a rest)
    have hrest : ∀ x ∈ rest, x.wfB = true := fun x hx => hwf x (List.mem_cons_of_mem a hx)
    rw [parseInterfaces_cons_wf a rest s ha]
    by_cases hsig : matchesSig a = true
    · refine Or.inr ⟨_, a.bInterfaceNumber, by rw [if_pos hsig], ?_, ?_, rfl⟩
      · simp [List.any_cons, hsig]
      · rw [List.filter_cons_of_pos hsig]
        rfl
    · rw [if_neg hsig]
      rcases ih (scannedState a s) hrest with ⟨s', hcont, hany⟩ | ⟨dev, i, hfound, hany, hhead, hh⟩
      · refine Or.inl ⟨s', hcont, ?_⟩
        simp only [List.any_cons, Bool.or_eq_false_iff]
        exact ⟨by simpa using hsig, hany⟩
      · refine Or.inr ⟨dev, i, hfound, ?_, ?_, hh⟩
        · simp [List.any_cons, hany]
        · rw [List.filter_cons_of_neg (by simpa using hsig)]
          exact hhead

theorem parseConfigs_wf (cfgs : List ConfigDesc) (s : ScanState)
    (hwf : ∀ c ∈ cfgs, c.wfB = true) :
    (parseConfigs cfgs s = .einval ∧
      (cfgs.any fun c => c.interfaces.any matchesSig) = false) ∨
    (∃ dev i, parseConfigs cfgs s = .found dev i ∧
      (cfgs.any fun c => c.interfaces.any matchesSig) = true ∧
      ((cfgs.map cfgSigNumbers).flatten).head? = some i ∧ dev.handle = true) := by
  induction cfgs generalizing s with
  | nil => exact Or.inl ⟨rfl, rfl⟩
  | cons c rest ih =>
    have hc : c.wfB = true := hwf c (List.mem_cons_self c rest)
    have hrest : ∀ x ∈ rest, x.wfB = true := fun x hx => hwf x (List.mem_cons_of_mem c hx)
    have hctype : c.bDescriptorType = LIBUSB_DT_CONFIG := by
      simp only [ConfigDesc.wfB, Bool.and_eq_true, beq_iff_eq] at hc
      exact hc.1
    have hcintfs : ∀ a ∈ c.interfaces, a.wfB = true := by
      simp only [ConfigDesc.wfB, Bool.and_eq_true, List.all_eq_true] at hc
      exact fun a haa => hc.2 a haa
    show (parseConfigs (c :: rest) s = .einval ∧ _) ∨ _
    rw [parseConfigs]
    rw [if_neg (not_not_intro hctype)]
    rcases parseInterfaces_wf c.interfaces s hcintfs with
      ⟨s', hcont, hany⟩ | ⟨dev, i, hfound, hany, hhead, hh⟩
    · rw [hcont]
      rcases ih s' hrest with ⟨heinval, hany'⟩ | ⟨dev, i, hfound, hany', hhead, hh⟩
      · refine Or.inl ⟨heinval, ?_⟩
        simp [List.any_cons, hany, hany']
      · refine Or.inr ⟨dev, i, hfound, ?_, ?_, hh⟩
        · simp [List.any_cons, hany']
        · have hnil : cfgSigNumbers c = [] := by
            unfold cfgSigNumbers
            have : c.interfaces.filter matchesSig = [] := by
              rw [List.filter_eq_nil_iff]
              intro a haa
              have := List.any_eq_false.mp (by simpa using hany) a haa
              simpa using this
            rw [this]
            rfl
          rw [List.map_cons, List.flatten_cons, hnil, List.nil_append]
          exact hhead
    · rw [hfound]
      refine Or.inr ⟨dev, i, rfl, ?_, ?_, hh⟩
      · simp [List.any_cons, hany]
      · rw [List.map_cons, List.flatten_cons]
        unfold cfgSigNumbers
        rcases hmf : (c.interfaces.filter matchesSig).map AltSetting.bInterfaceNumber with
          _ | ⟨x, xs⟩
        · rw [hmf] at hhead
          simp at hhead
        · rw [hmf] at hhead
          simp only [List.head?_cons, Option.some.injEq] at hhead
          rw [List.cons_append, List.head?_cons, hhead]

theorem parse_usb_desc_wf (d : DeviceDesc) (hwf : matchesId d = true → d.wfB = true) :
    (parse_usb_desc d = .einval ∧ (matchesId d && hasMatchingIntf d) = false) ∨
    (∃ dev i, parse_usb_desc d = .found dev i ∧
      (matchesId d && hasMatchingIntf d) = true ∧
      (sigIntfNumbers d).head? = some i ∧ dev.handle = true) := by
  by_cases hid : matchesId d = true
  · have hdwf := hwf hid
    have hdtype : d.bDescriptorType = LIBUSB_DT_DEVICE := by
      simp only [DeviceDesc.wfB, Bool.and_eq_true, beq_iff_eq] at hdwf
      exact hdwf.1
    have hcfgs : ∀ c ∈ d.configs, c.wfB = true := by
      simp only [DeviceDesc.wfB, Bool.and_eq_true, List.all_eq_true] at hdwf
      exact fun c hc => hdwf.2 c hc
    have hid' : ¬ (d.idVendor ≠ 0x05c6 ∨ d.idProduct ≠ 0x9008) := by
      simp only [matchesId, Bool.and_eq_true, beq_iff_eq] at hid
      tauto
    unfold parse_usb_desc
    rw [if_neg hid', if_neg (not_not_intro hdtype)]
    rcases parseConfigs_wf d.configs ⟨none, none⟩ hcfgs with
      ⟨heinval, hany⟩ | ⟨dev, i, hfound, hany, hhead, hh⟩
    · refine Or.inl ⟨heinval, ?_⟩
      simp [hasMatchingIntf, hany]
    · refine Or.inr ⟨dev, i, hfound, ?_, ?_, hh⟩
      · simp [hid, hasMatchingIntf, hany]
      · unfold sigIntfNumbers
        rw [if_pos hid]
        exact hhead
  · have hid0 : matchesId d = false := by simpa using hid
    refine Or.inl ⟨?_, by simp [hid0]⟩
    unfold parse_usb_desc
    have : d.idVendor ≠ 0x05c6 ∨ d.idProduct ≠ 0x9008 := by
      simp only [matchesId, Bool.and_eq_true, beq_iff_eq] at hid
      tauto
    rw [if_pos this]

theorem usb_open_wf (devs : List DeviceDesc)
    (hwf : ∀ d ∈ devs, matchesId d = true → d.wfB = true) :
    (usb_open devs = .noent ∧
      (devs.any fun d => matchesId d && hasMatchingIntf d) = false) ∨
    (∃ dev i, usb_open devs = .opened dev i ∧
      (devs.any fun d => matchesId d && hasMatchingIntf d) = true ∧
      (allSigIntfNumbers devs).head? = some i ∧ dev.handle = true) := by
  induction devs with
  | nil => exact Or.inl ⟨rfl, rfl⟩
  | cons d rest ih =>
    have hd := hwf d (List.mem_cons_self d rest)
    have hrest : ∀ x ∈ rest, matchesId x = true → x.wfB = true :=
      fun x hx => hwf x (List.mem_cons_of_mem d hx)
    rw [usb_open]
    rcases parse_usb_desc_wf d hd with ⟨heinval, hfalse⟩ | ⟨dev, i, hfound, htrue, hhead, hh⟩
    · rw [heinval]
      have hnil : sigIntfNumbers d = [] := by
        rcases Bool.and_eq_false_iff.mp hfalse with hid | hint
        · unfold sigIntfNumbers
          rw [if_neg (by simp [hid])]
        · by_cases hid : matchesId d = true
          · unfold sigIntfNumbers
            rw [if_pos hid]
            have hall : ∀ x ∈ d.configs, ∀ y ∈ x.interfaces, matchesSig y = false := by
              simpa [hasMatchingIntf] using hint
            have : ∀ c ∈ d.configs, (c.interfaces.filter matchesSig).map
                AltSetting.bInterfaceNumber = [] := by
              intro c hc
              have : c.interfaces.filter matchesSig = [] := by
                rw [List.filter_eq_nil_iff]
                intro a haa
                simp [hall c hc a haa]
              rw [this]
              rfl
            rw [List.flatten_eq_nil_iff.mpr]
            intro l hl
            rcases List.mem_map.mp hl with ⟨c, hc, hceq⟩
            rw [← hceq]
            exact this c hc
          · unfold sigIntfNumbers
            rw [if_neg hid]
      rcases ih hrest with ⟨hnoent, hany⟩ | ⟨dev, i, hopened, hany, hhead, hh⟩
      · refine Or.inl ⟨hnoent, ?_⟩
        simp [List.any_cons, hfalse, hany]
      · refine Or.inr ⟨dev, i, hopened, ?_, ?_, hh⟩
        · simp [List.any_cons, hany]
        · unfold allSigIntfNumbers
          rw [List.map_cons, List.flatten_cons, hnil, List.nil_append]
          exact hhead
    · rw [hfound]
      refine Or.inr ⟨dev, i, rfl, ?_, ?_, hh⟩
      · simp [List.any_cons, htrue]
      · unfold allSigIntfNumbers
        rw [List.map_cons, List.flatten_cons]
        rcases hms : sigIntfNumbers d with _ | ⟨x, xs⟩
        · rw [hms] at hhead
          simp at hhead
        · rw [hms] at hhead
          simp only [List.head?_cons, Option.some.injEq] at hhead
          rw [List.cons_append, List.head?_cons, hhead]

/-- C2 (amended with descriptor well-formedness): provided every device with
the matching identity has well-formed descriptors, `usb_open` selects a
session exactly when some attached device has the `05c6:9008` identity and an
interface with class `0xff`, subclass `0xff`, protocol `0xff` or `0x10`;
a wrong-identity device never yields a session regardless of its interfaces;
an interface failing the signature is skipped even when its endpoints were
valid; the first found device ends enumeration immediately; and the selected
interface is the first signature-passing one in device → configuration →
interface order, with the device opened. -/
theorem usb_selection (devs : List DeviceDesc)
    (hwf : ∀ d ∈ devs, matchesId d = true → d.wfB = true) :
    ((∃ dev i, usb_open devs = .opened dev i) ↔
      ∃ d ∈ devs, matchesId d = true ∧ hasMatchingIntf d = true) ∧
    (∀ d, matchesId d = false → parse_usb_desc d = .einval) ∧
    (∀ a rest s, a.wfB = true → matchesSig a = false →
      parseInterfaces (a :: rest) s = parseInterfaces rest (scannedState a s)) ∧
    (∀ d rest dev i, parse_usb_desc d = .found dev i →
      usb_open (d :: rest) = .opened dev i) ∧
    (∀ dev i, usb_open devs = .opened dev i →
      (allSigIntfNumbers devs).head? = some i ∧ dev.handle = true) := by
  refine ⟨?_, ?_, ?_, ?_, ?_⟩
  · constructor
    · rintro ⟨dev, i, h⟩
      rcases usb_open_wf devs hwf with ⟨hnoent, -⟩ | ⟨dev', i', hop, hany, -, -⟩
      · rw [hnoent] at h
        cases h
      · rcases List.any_eq_true.mp hany with ⟨d, hd, hp⟩
        rcases Bool.and_eq_true_iff.mp hp with ⟨hid, hint⟩
        exact ⟨d, hd, hid, hint⟩
    · rintro ⟨d, hd, hid, hint⟩
      rcases usb_open_wf devs hwf with ⟨-, hany⟩ | ⟨dev, i, hop, -, -, -⟩
      · have := List.any_eq_false.mp hany d hd
        rw [hid, hint] at this
        simp at this
      · exact ⟨dev, i, hop⟩
  · intro d hid
    have hne : d.idVendor ≠ 0x05c6 ∨ d.idProduct ≠ 0x9008 := by
      by_contra hcon
      push_neg at hcon
      simp [matchesId, hcon.1, hcon.2] at hid
    unfold parse_usb_desc
    rw [if_pos hne]
  · intro a rest s hawf hsig
    rw [parseInterfaces_cons_wf a rest s hawf, if_neg (by simp [hsig])]
  · intro d rest dev i h
    rw [usb_open, h]
  · intro dev i h
    rcases usb_open_wf devs hwf with ⟨hnoent, -⟩ | ⟨dev', i', hop, -, hhead, hh⟩
    · rw [hnoent] at h
      cases h
    · rw [hop] at h
      cases h
      exact ⟨hhead, hh⟩

/-- C2 counterexample: as literally stated (no well-formedness caveat) the
"exactly when" fails — `badTypeDev` has the matching identity and a
signature-passing interface, yet enumeration selects nothing because its
device descriptor type is inconsistent. -/
theorem usb_selection_counterexample :
    usb_open [badTypeDev] = .noent ∧
    matchesId badTypeDev = true ∧ hasMatchingIntf badTypeDev = true := by
  decide

/-- Witness for C2: a wrong-identity device followed by a well-formed matching
device; the session comes from the second device's interface number 3, the
first signature-passing interface in enumeration order. -/
theorem usb_selection_witness :
    (∃ dev i, usb_open [wrongIdDev, goodDev] = UsbOpen.opened dev i) ∧
    parse_usb_desc wrongIdDev = ParseOutcome.einval ∧
    (allSigIntfNumbers [wrongIdDev, goodDev]).head? = some 3 := by
  have h := usb_selection [wrongIdDev, goodDev] (by decide)
  refine ⟨h.1.mpr ⟨goodDev, by simp, by decide, by decide⟩,
    h.2.1 wrongIdDev (by decide), ?_⟩
  exact (h.2.2.2.2 ⟨true, some (0x81, 512), some (1, 64)⟩ 3 (by decide)).1

/-- C7 (amended): an internally inconsistent descriptor aborts the scan of the
*offending device only*: `parse_usb_desc` returns `-EINVAL` whatever the rest
of that device's descriptor tables hold, and `usb_open` then continues the
enumeration with the remaining devices instead of aborting it. -/
theorem descriptor_inconsistency_scoped :
    (∀ d cfgs, matchesId d = true → d.bDescriptorType ≠ LIBUSB_DT_DEVICE →
      parse_usb_desc { d with configs := cfgs } = .einval) ∧
    (∀ c rest s, c.bDescriptorType ≠ LIBUSB_DT_CONFIG →
      parseConfigs (c :: rest) s = .einval) ∧
    (∀ a rest s,
      a.bDescriptorType ≠ LIBUSB_DT_INTERFACE ∨ a.bLength < LIBUSB_DT_INTERFACE_SIZE →
      parseInterfaces (a :: rest) s = .einval) ∧
    (∀ e rest s, e.bDescriptorType ≠ LIBUSB_DT_ENDPOINT →
      scanEndpoints (e :: rest) s = none) ∧
    (∀ d rest, parse_usb_desc d = .einval → usb_open (d :: rest) = usb_open rest) := by
  refine ⟨?_, ?_, ?_, ?_, ?_⟩
  · intro d cfgs hid htype
    have hne : ¬ (d.idVendor ≠ 0x05c6 ∨ d.idProduct ≠ 0x9008) := by
      simp only [matchesId, Bool.and_eq_true, beq_iff_eq] at hid
      tauto
    unfold parse_usb_desc
    rw [if_neg hne, if_pos htype]
  · intro c rest s htype
    rw [parseConfigs, if_pos htype]
  · intro a rest s hbad
    rw [parseInterfaces]
    by_cases htype : a.bDescriptorType ≠ LIBUSB_DT_INTERFACE
    · rw [if_pos htype]
    · rcases hbad with h | h
      · exact absurd h htype
      · rw [if_neg htype, if_pos h]
  · intro e rest s htype
    rw [scanEndpoints, if_pos htype]
  · intro d rest h
    rw [usb_open, h]

/-- C7 counterexample: with an inconsistent device descriptor first in the
list, the enumeration is not aborted — a session is still selected from the
later device, contradicting "no later device in the device list is inspected
and no session is selected". -/
theorem descriptor_inconsistency_counterexample :
    matchesId badTypeDev = true ∧
    badTypeDev.bDescriptorType = 0 ∧ LIBUSB_DT_DEVICE = 1 ∧
    usb_open [badTypeDev, goodDev] =
      UsbOpen.opened ⟨true, some (0x81, 512), some (1, 64)⟩ 3 := by
  decide

/-- Witness for C7 (amended): each inconsistency conjunct evaluated at a
concrete malformed descriptor, and the continuation conjunct at the
counterexample device list. -/
theorem descriptor_inconsistency_scoped_witness :
    parse_usb_desc badTypeDev = ParseOutcome.einval ∧
    parseConfigs [⟨0, []⟩] ⟨none, none⟩ = ParseOutcome.einval ∧
    parseInterfaces [⟨0, 9, 0xff, 0xff, 0xff, 0, []⟩] ⟨none, none⟩ = IntfScan.einval ∧
    scanEndpoints [⟨4, 2, 0x81, 64⟩] ⟨none, none⟩ = none ∧
    usb_open [badTypeDev, goodDev] = usb_open [goodDev] := by
  have h := descriptor_inconsistency_scoped
  exact ⟨h.1 badTypeDev badTypeDev.configs (by decide) (by decide),
    h.2.1 ⟨0, []⟩ [] ⟨none, none⟩ (by decide),
    h.2.2.1 ⟨0, 9, 0xff, 0xff, 0xff, 0, []⟩ [] ⟨none, none⟩ (Or.inl (by decide)),
    h.2.2.2.1 ⟨4, 2, 0x81, 64⟩ [] ⟨none, none⟩ (by decide),
    h.2.2.2.2 badTypeDev [goodDev] (by decide)⟩

/-- C8: evaluating the enumeration on a well-formed matching device whose
signature-passing interface has zero endpoints: the code opens the device and
hands back a session whose endpoint and packet-size fields were never
assigned by any endpoint scan (the C locals are read uninitialized, modelled
as `none`) — a partially initialized session visible to the caller. -/
theorem session_unassigned_endpoints :
    usb_open [noEndpointsDev] = UsbOpen.opened ⟨true, none, none⟩ 0 ∧
    noEndpointsDev.wfB = true ∧
    noEndpointsDev.configs = [⟨2, [⟨4, 9, 0xff, 0xff, 0xff, 0, []⟩]⟩] := by
  decide

theorem scanDataChildren_eq (cs : List XmlNode) :
    scanDataChildren cs =
      match (cs.filter isPU).head? with
      | none => QDL_FILE_UNKNOWN
      | some n => if n.name = "program" then QDL_FILE_PROGRAM else QDL_FILE_UFS := by
  induction cs with
  | nil => rfl
  | cons n rest ih =>
    rw [scanDataChildren]
    by_cases ht : n.nodeType = XML_ELEMENT_NODE
    · rw [if_neg (not_not_intro ht)]
      by_cases hp : n.name = "program"
      · rw [if_pos hp, List.filter_cons_of_pos (by simp [isPU, ht, hp])]
        simp [hp]
      · rw [if_neg hp]
        by_cases hu : n.name = "ufs"
        · rw [if_pos hu, List.filter_cons_of_pos (by simp [isPU, ht, hu])]
          simp [hp]
        · rw [if_neg hu, List.filter_cons_of_neg (by simp [isPU, hp, hu]), ih]
    · rw [if_pos ht, List.filter_cons_of_neg (by simp [isPU, ht]), ih]

theorem scanDataChildren_nonneg (cs : List XmlNode) : 0 ≤ scanDataChildren cs := by
  rw [scanDataChildren_eq]
  rcases (cs.filter isPU).head? with _ | n
  · simp [QDL_FILE_UNKNOWN]
  · by_cases h : n.name = "program" <;>
      simp [h, QDL_FILE_PROGRAM, QDL_FILE_UFS]

theorem detect_type_nonneg (root : XmlNode) : 0 ≤ detect_type (some root) := by
  rw [detect_type]
  split_ifs
  · simp [QDL_FILE_PATCH]
  · exact scanDataChildren_nonneg root.children
  · simp [QDL_FILE_CONTENTS]
  · simp [QDL_FILE_UNKNOWN]

/-- C4: classification fails (negative return) exactly on unreadable or
malformed XML; root `patches` → Patch; root `contents` → Contents; a `data`
root is decided by the first *element* child named `program` or `ufs` in
document order (non-element nodes skipped), defaulting to Unknown; any other
well-formed root yields Unknown as a normal non-negative return, never an
error. -/
theorem detect_type_classification :
    (∀ o : Option XmlNode, detect_type o < 0 ↔ o = none) ∧
    (∀ root : XmlNode, root.name = "patches" →
      detect_type (some root) = QDL_FILE_PATCH) ∧
    (∀ root : XmlNode, root.name = "contents" →
      detect_type (some root) = QDL_FILE_CONTENTS) ∧
    (∀ root : XmlNode, root.name = "data" →
      detect_type (some root) =
        match (root.children.filter isPU).head? with
        | none => QDL_FILE_UNKNOWN
        | some n => if n.name = "program" then QDL_FILE_PROGRAM else QDL_FILE_UFS) ∧
    (∀ root : XmlNode, root.name ≠ "patches" → root.name ≠ "data" →
      root.name ≠ "contents" → detect_type (some root) = QDL_FILE_UNKNOWN) ∧
    (∀ root : XmlNode, 0 ≤ detect_type (some root)) := by
  refine ⟨?_, ?_, ?_, ?_, ?_, detect_type_nonneg⟩
  · intro o
    cases o with
    | none => simp [detect_type]
    | some root =>
      constructor
      · intro h
        have := detect_type_nonneg root
        omega
      · intro h
        cases h
  · intro root h
    rw [detect_type, if_pos h]
  · intro root h
    rw [detect_type, if_neg (by rw [h]; decide), if_neg (by rw [h]; decide), if_pos h]
  · intro root h
    rw [detect_type, if_neg (by rw [h]; decide), if_pos h, scanDataChildren_eq]
  · intro root h1 h2 h3
    rw [detect_type, if_neg h1, if_neg h2, if_neg h3]

/-- Witness for C4: a `patches` root, a `data` root whose children are a text
node named `program` (skipped), an element `foo`, then element `ufs` before
element `program` (so StorageProvisioning wins by document order), a parse
failure, and an unrecognized root. -/
theorem detect_type_classification_witness :
    detect_type (some (XmlNode.mk 1 "patches" [])) = QDL_FILE_PATCH ∧
    detect_type (some (XmlNode.mk 1 "data"
      [XmlNode.mk 3 "program" [], XmlNode.mk 1 "foo" [], XmlNode.mk 1 "ufs" [],
        XmlNode.mk 1 "program" []])) = QDL_FILE_UFS ∧
    detect_type none < 0 ∧
    detect_type (some (XmlNode.mk 1 "widget" [])) = QDL_FILE_UNKNOWN := by
  have h := detect_type_classification
  refine ⟨h.2.1 _ rfl, ?_, (h.1 none).mpr rfl,
    h.2.2.2.2.1 _ (by decide) (by decide) (by decide)⟩
  rw [h.2.2.2.1 (XmlNode.mk 1 "data"
    [XmlNode.mk 3 "program" [], XmlNode.mk 1 "foo" [], XmlNode.mk 1 "ufs" [],
      XmlNode.mk 1 "program" []]) rfl]
  rfl

theorem dispatchFiles_all_ok : ∀ (files : List SupportFile) (i : Nat),
    (∀ f ∈ files, stagesOk f) →
    dispatchFiles i files = ((List.range' i files.length).map Event.load, true) := by
  intro files
  induction files with
  | nil => intro i _; rfl
  | cons f rest ih =>
    intro i h
    obtain ⟨ht, hl⟩ := h f (List.mem_cons_self f rest)
    rw [dispatchFiles]
    rw [if_neg (by rcases ht with h1 | h1 | h1 <;> rw [h1] <;> decide),
      if_pos ht, if_neg (by omega),
      ih (i + 1) (fun g hg => h g (List.mem_cons_of_mem f hg))]
    rw [List.length_cons, List.range'_succ, List.map_cons]

theorem dispatchFiles_fail : ∀ (pre : List SupportFile) (f : SupportFile)
    (post : List SupportFile) (i : Nat), (∀ g ∈ pre, stagesOk g) → failsStaging f →
    ∃ extra, dispatchFiles i (pre ++ f :: post) =
      ((List.range' i pre.length).map Event.load ++ extra, false) ∧
      (extra = [] ∨ extra = [Event.load (i + pre.length)]) := by
  intro pre
  induction pre with
  | nil =>
    intro f post i _ hf
    rcases hf with h1 | h1 | ⟨ht, hl⟩
    · refine ⟨[], ?_, Or.inl rfl⟩
      rw [List.nil_append, dispatchFiles, if_pos (Or.inl h1)]
      rfl
    · refine ⟨[], ?_, Or.inl rfl⟩
      rw [List.nil_append, dispatchFiles, if_pos (Or.inr h1)]
      rfl
    · refine ⟨[Event.load i], ?_, Or.inr (by rw [List.length_nil, Nat.add_zero])⟩
      rw [List.nil_append, dispatchFiles,
        if_neg (by rcases ht with h1 | h1 | h1 <;> rw [h1] <;> decide),
        if_pos ht, if_pos hl]
      rfl
  | cons g pre' ih =>
    intro f post i hpre hf
    obtain ⟨ht, hl⟩ := hpre g (List.mem_cons_self g pre')
    obtain ⟨extra, heq, hex⟩ :=
      ih f post (i + 1) (fun x hx => hpre x (List.mem_cons_of_mem g hx)) hf
    refine ⟨extra, ?_, ?_⟩
    · rw [List.cons_append, dispatchFiles,
        if_neg (by rcases ht with h1 | h1 | h1 <;> rw [h1] <;> decide),
        if_pos ht, if_neg (by omega), heq]
      rw [List.length_cons, List.range'_succ, List.map_cons]
      rfl
    · rcases hex with h | h
      · exact Or.inl h
      · refine Or.inr ?_
        rw [h, List.length_cons]
        have harith : i + 1 + pre'.length = i + (pre'.length + 1) := by omega
        rw [harith]

theorem dispatchFiles_loads : ∀ (files : List SupportFile) (i : Nat),
    ∀ e ∈ (dispatchFiles i files).1, ∃ j, e = Event.load j := by
  intro files
  induction files with
  | nil =>
    intro i e he
    simp [dispatchFiles] at he
  | cons f rest ih =>
    intro i e he
    rw [dispatchFiles] at he
    by_cases h1 : detect_type f.xml < 0 ∨ detect_type f.xml = QDL_FILE_UNKNOWN
    · rw [if_pos h1] at he
      simp at he
    · rw [if_neg h1] at he
      by_cases h2 : detect_type f.xml = QDL_FILE_PATCH ∨
          detect_type f.xml = QDL_FILE_PROGRAM ∨ detect_type f.xml = QDL_FILE_UFS
      · rw [if_pos h2] at he
        by_cases h3 : f.loadResult < 0
        · rw [if_pos h3] at he
          simp at he
          exact ⟨i, he⟩
        · rw [if_neg h3] at he
          simp only [List.mem_cons] at he
          rcases he with he | he
          · exact ⟨i, he⟩
          · exact ih (i + 1) e he
      · rw [if_neg h2] at he
        simp at he

theorem count_load_range' (s n j : Nat) :
    ((List.range' s n).map Event.load).count (Event.load j) =
      if s ≤ j ∧ j < s + n then 1 else 0 := by
  have hinj : Function.Injective Event.load := by
    intro a b h
    cases h
    rfl
  rw [List.count_map_of_injective _ _ hinj]
  by_cases h : s ≤ j ∧ j < s + n
  · rw [if_pos h]
    exact List.count_eq_one_of_mem (List.nodup_range' s n) (List.mem_range'_1.mpr h)
  · rw [if_neg h]
    exact List.count_eq_zero_of_not_mem (fun hm => h (List.mem_range'_1.mp hm))

/-- C5: the dispatcher classifies and loads the support files one by one in
argument order, all before any USB I/O: when every support file stages, the
trace is exactly the loads in order followed by `usbOpen` (and whatever
follows); when the support list splits as `pre ++ f :: post` with every file
of `pre` staging and `f` failing to stage (parse failure, Unknown, or loader
failure), each loader of `pre` ran exactly once, no loader after `f` ever
ran, no USB enumeration or transfer happened, and the process exits 1. -/
theorem dispatcher_ordering (prog : SupportFile) (support : List SupportFile)
    (usbOk : Bool) (saharaRet firehoseRet : Int) :
    ((∀ f ∈ support, stagesOk f) → 0 < support.length →
      ∃ tail, (qdl_main (prog :: support) usbOk saharaRet firehoseRet).1 =
        (List.range' 0 support.length).map Event.load ++ (Event.usbOpen :: tail)) ∧
    (∀ pre f post, support = pre ++ f :: post →
      (∀ g ∈ pre, stagesOk g) → failsStaging f →
      (∀ j < pre.length,
        (qdl_main (prog :: support) usbOk saharaRet firehoseRet).1.count
          (Event.load j) = 1) ∧
      (∀ j, pre.length < j →
        Event.load j ∉ (qdl_main (prog :: support) usbOk saharaRet firehoseRet).1) ∧
      Event.usbOpen ∉ (qdl_main (prog :: support) usbOk saharaRet firehoseRet).1 ∧
      Event.sahara ∉ (qdl_main (prog :: support) usbOk saharaRet firehoseRet).1 ∧
      Event.firehose ∉ (qdl_main (prog :: support) usbOk saharaRet firehoseRet).1 ∧
      (qdl_main (prog :: support) usbOk saharaRet firehoseRet).2 = 1) := by
  constructor
  · intro hok hlen
    have hlen2 : ¬ (prog :: support).length < 2 := by
      simp only [List.length_cons]
      omega
    unfold qdl_main
    rw [if_neg hlen2]
    have hd : dispatchFiles 0 (prog :: support).tail =
        ((List.range' 0 support.length).map Event.load, true) :=
      dispatchFiles_all_ok support 0 hok
    rw [hd]
    simp only [Bool.true_eq_false, ite_false, if_neg]
    by_cases hu : usbOk = false
    · rw [if_pos hu]
      exact ⟨[], rfl⟩
    · rw [if_neg hu]
      by_cases hs : saharaRet < 0
      · rw [if_pos hs]
        exact ⟨[Event.sahara], rfl⟩
      · rw [if_neg hs]
        by_cases hfh : firehoseRet < 0
        · rw [if_pos hfh]
          exact ⟨[Event.sahara, Event.firehose], rfl⟩
        · rw [if_neg hfh]
          exact ⟨[Event.sahara, Event.firehose], rfl⟩
  · intro pre f post hsplit hpre hf
    have hlen2 : ¬ (prog :: support).length < 2 := by
      subst hsplit
      simp only [List.length_cons, List.length_append, List.length_cons]
      omega
    obtain ⟨extra, heq, hex⟩ := dispatchFiles_fail pre f post 0 hpre hf
    have hmain : qdl_main (prog :: support) usbOk saharaRet firehoseRet =
        ((List.range' 0 pre.length).map Event.load ++ extra, 1) := by
      unfold qdl_main
      rw [if_neg hlen2]
      simp only [hsplit, List.tail_cons, heq]
      rw [if_pos trivial]
    rw [hmain]
    have hextra_load : ∀ e ∈ extra, e = Event.load pre.length := by
      intro e he
      rcases hex with h | h
      · rw [h] at he
        cases he
      · rw [h] at he
        simp only [List.mem_singleton] at he
        rw [he, Nat.zero_add]
    refine ⟨?_, ?_, ?_, ?_, ?_, rfl⟩
    · intro j hj
      rw [List.count_append, count_load_range' 0 pre.length j,
        if_pos (by omega)]
      have : extra.count (Event.load j) = 0 := by
        apply List.count_eq_zero_of_not_mem
        intro hm
        have := hextra_load _ hm
        cases this
        omega
      omega
    · intro j hj hm
      rcases List.mem_append.mp hm with h | h
      · rcases List.mem_map.mp h with ⟨a, ha, hae⟩
        have := List.mem_range'_1.mp ha
        cases hae
        omega
      · have := hextra_load _ h
        cases this
        omega
    · intro hm
      rcases List.mem_append.mp hm with h | h
      · rcases List.mem_map.mp h with ⟨a, _, hae⟩
        cases hae
      · have := hextra_load _ h
        cases this
    · intro hm
      rcases List.mem_append.mp hm with h | h
      · rcases List.mem_map.mp h with ⟨a, _, hae⟩
        cases hae
      · have := hextra_load _ h
        cases this
    · intro hm
      rcases List.mem_append.mp hm with h | h
      · rcases List.mem_map.mp h with ⟨a, _, hae⟩
        cases hae
      · have := hextra_load _ h
        cases this

/-- Witness for C5: with support files `[patch, patch]` all staging succeeds
and the trace is both loads then `usbOpen`; with `[patch, unknown, patch]`
the second file fails to classify, the first loader ran exactly once, the
third never ran, no USB event occurred, and the exit code is 1. -/
theorem dispatcher_ordering_witness :
    (∃ tail, (qdl_main [progFile, patchFile, patchFile] true 0 0).1 =
      (List.range' 0 2).map Event.load ++ (Event.usbOpen :: tail)) ∧
    (qdl_main [progFile, patchFile, unknownFile, patchFile] true 0 0).1.count
      (Event.load 0) = 1 ∧
    Event.load 2 ∉ (qdl_main [progFile, patchFile, unknownFile, patchFile] true 0 0).1 ∧
    Event.usbOpen ∉ (qdl_main [progFile, patchFile, unknownFile, patchFile] true 0 0).1 ∧
    (qdl_main [progFile, patchFile, unknownFile, patchFile] true 0 0).2 = 1 := by
  have h1 := (dispatcher_ordering progFile [patchFile, patchFile] true 0 0).1
    (by decide) (by decide)
  have h2 := (dispatcher_ordering progFile [patchFile, unknownFile, patchFile] true 0 0).2
    [patchFile] unknownFile [patchFile] rfl (by decide) (by decide)
  exact ⟨h1, h2.1 0 (by decide), h2.2.1 2 (by decide), h2.2.2.1, h2.2.2.2.2.2⟩

theorem qdl_main_suffix (args : List SupportFile) (usbOk : Bool) (sr fr : Int)
    (h : ¬ args.length < 2) :
    ∃ suffix, (qdl_main args usbOk sr fr).1 = (dispatchFiles 0 args.tail).1 ++ suffix ∧
      Event.usage ∉ suffix := by
  simp only [qdl_main, if_neg h]
  by_cases h2 : (dispatchFiles 0 args.tail).2 = false
  · rw [if_pos h2]
    exact ⟨[], (List.append_nil _).symm, by decide⟩
  · rw [if_neg h2]
    by_cases hu : usbOk = false
    · rw [if_pos hu]
      exact ⟨[Event.usbOpen], rfl, by decide⟩
    · rw [if_neg hu]
      by_cases hs : sr < 0
      · rw [if_pos hs]
        exact ⟨[Event.usbOpen, Event.sahara], rfl, by decide⟩
      · rw [if_neg hs]
        by_cases hfh : fr < 0
        · rw [if_pos hfh]
          exact ⟨[Event.usbOpen, Event.sahara, Event.firehose], rfl, by decide⟩
        · rw [if_neg hfh]
          exact ⟨[Event.usbOpen, Event.sahara, Event.firehose], rfl, by decide⟩

/-- C9 (amended): the CLI requires at least *two* positional arguments — the
programmer image plus at least one support file.  With fewer, `main` prints
the usage text and exits 1 before any loader or device interaction; with two
or more, the usage path is never taken. -/
theorem usage_arg_check (args : List SupportFile) (usbOk : Bool)
    (saharaRet firehoseRet : Int) :
    (args.length < 2 →
      qdl_main args usbOk saharaRet firehoseRet = ([Event.usage], 1)) ∧
    (2 ≤ args.length →
      Event.usage ∉ (qdl_main args usbOk saharaRet firehoseRet).1) := by
  constructor
  · intro h
    unfold qdl_main
    rw [if_pos h]
  · intro h hm
    obtain ⟨suffix, heq, hnu⟩ :=
      qdl_main_suffix args usbOk saharaRet firehoseRet (by omega)
    rw [heq] at hm
    rcases List.mem_append.mp hm with hmm | hmm
    · obtain ⟨j, hj⟩ := dispatchFiles_loads args.tail 0 Event.usage hmm
      cases hj
    · exact hnu hmm

/-- C9 counterexample: the invocation naming only the programmer image (one
positional argument, zero support files) does *not* pass argument validation:
the code's `optind + 2 > argc` check makes it a usage error with exit 1. -/
theorem usage_arg_check_counterexample :
    qdl_main [progFile] true 0 0 = ([Event.usage], 1) ∧
    [progFile].length = 1 := ⟨rfl, rfl⟩

/-- Witness for C9 (amended): the empty argument list is a usage error, and a
two-positional invocation never reaches the usage path. -/
theorem usage_arg_check_witness :
    qdl_main [] true 0 0 = ([Event.usage], 1) ∧
    Event.usage ∉ (qdl_main [progFile, patchFile] true 0 0).1 := by
  exact ⟨(usage_arg_check [] true 0 0).1 (by decide),
    (usage_arg_check [progFile, patchFile] true 0 0).2 (by decide)⟩

/-- C6: `qdl_read` issues exactly one bulk-IN transfer, of at most `len`
bytes, with the caller's timeout; on success it returns the transferred byte
count reported by the transport (which may be less than `len`), and on
failure it returns the transport's error code verbatim — no retry, no
reinterpretation. -/
theorem read_single_transfer (in_ep len timeout : Nat)
    (usb : BulkTransferCall → Int × Nat) :
    (qdl_read in_ep len timeout usb).1 = [⟨in_ep, len, timeout⟩] ∧
    ((usb ⟨in_ep, len, timeout⟩).1 = 0 →
      (qdl_read in_ep len timeout usb).2 = ((usb ⟨in_ep, len, timeout⟩).2 : Int)) ∧
    ((usb ⟨in_ep, len, timeout⟩).1 ≠ 0 →
      (qdl_read in_ep len timeout usb).2 = (usb ⟨in_ep, len, timeout⟩).1) := by
  refine ⟨rfl, ?_, ?_⟩
  · intro h
    simp [qdl_read, h]
  · intro h
    simp [qdl_read, h]

/-- Witness for C6: a transport reporting 5 of 64 requested bytes returns 5;
a transport failing with `-7` (`LIBUSB_ERROR_TIMEOUT`) returns `-7`. -/
theorem read_single_transfer_witness :
    (qdl_read 0x81 64 1000 (fun _ => ((0 : Int), (5 : Nat)))).1 =
      [⟨0x81, 64, 1000⟩] ∧
    (qdl_read 0x81 64 1000 (fun _ => ((0 : Int), (5 : Nat)))).2 = 5 ∧
    (qdl_read 0x81 64 1000 (fun _ => ((-7 : Int), (0 : Nat)))).2 = -7 := by
  have h1 := read_single_transfer 0x81 64 1000 (fun _ => ((0 : Int), (5 : Nat)))
  have h2 := read_single_transfer 0x81 64 1000 (fun _ => ((-7 : Int), (0 : Nat)))
  exact ⟨h1.1, h1.2.1 rfl, h2.2.2 (by decide)⟩

end Qdl
